import Mathlib

/-!
Shallow embedding of `src/mm.c` — a segregated-free-list malloc implementation
(CS:APP malloc lab style) — together with theorems checking the natural-language
specification against the code.

Modelling conventions, chosen to mirror the C faithfully:

* The managed byte region provided by the host (`memlib`) is modelled as a
  function `mem : Int → Nat` holding 32-bit words at 4-aligned byte offsets
  from the start of the host heap array.  `mem_sbrk` only moves `brk`; the
  host array has capacity `maxHeap` bytes (memlib uses `MAX_HEAP = 20*(1<<20)`)
  and fresh array memory reads as zero.
* Word reads and writes (`GET`/`PUT`, lines 61-62 of mm.c) succeed at any
  4-aligned offset inside the host array, even past `brk`, exactly as in the
  real program where such accesses stay inside the `memlib` array; an access
  outside the array (or unaligned, which never happens on clean states) is the
  model's representation of undefined behaviour and makes the operation return
  `none`.
* C pointers are byte offsets (`Int`); the null pointer is `Option.none`.
  The seven-slot class table `ptr_classes` occupies the first 56 bytes of the
  region (the first `mem_sbrk` in `mm_init`); since the C code accesses those
  bytes only through `ptr_classes[i]`, the table is carried as a separate
  field `classes` of the state.
* 32-bit words are `Nat` values; `putw` stores values mod 2^32.  `GET_SIZE`
  (line 65, `GET(p) & ~0x7`) is rendered as `v - v % 8`, which is equal to the
  bit-mask for every 32-bit value, and `GET_ALLOC` (line 66, `GET(p) & 0x1`)
  as `v % 2`.  `PACK` (line 58, `(size) | (alloc)`) is rendered as addition,
  equal to bitwise-or at every call site of mm.c because the size argument is
  always 8-aligned (or 4-aligned with alloc 0/1 and zero low bit overlap).
* Signed 32-bit quantities (`int`, the offset links read by `GET_I`) are
  recovered from stored words by `toInt32`.
-/

/-- 2^32, the number of 32-bit words. -/
def W32 : Nat := 4294967296

/-- Reduce a stored 32-bit word to the signed `int` it denotes. -/
def toInt32 (v : Nat) : Int :=
  if v < 2147483648 then (v : Int) else (v : Int) - (W32 : Int)

/-- Truncate an integer to an unsigned 32-bit word (C conversion to `uint32_t`). -/
def u32 (x : Int) : Nat := (x % (W32 : Int)).toNat

/-- Truncate an integer to a signed 32-bit `int` (C cast `(int)` of a wider value). -/
def castInt (x : Int) : Int := toInt32 (u32 x)

/-- `GET_SIZE` of a 32-bit word `v`: the C `v & ~0x7`, i.e. `v` with its low
three bits cleared, which for `v < 2^32` equals `v - v % 8`. -/
def GET_SIZE (v : Nat) : Nat := v - v % 8

/-- `GET_ALLOC` of a 32-bit word `v`: the C `v & 0x1`, i.e. `v % 2`. -/
def GET_ALLOC (v : Nat) : Nat := v % 2

/-- `PACK(size, alloc)` (mm.c line 58).  The C forms `size | alloc`; at every
call site `size` has zero low bits where `alloc` is nonzero, so it equals
addition. -/
def PACK (size alloc : Nat) : Nat := size + alloc

/-- The allocator state: the host byte array contents (32-bit words at
4-aligned byte offsets), the current break, the host array capacity, the
seven-slot class table, and the `heap_listp` global. -/
structure AState where
  mem : Int → Nat
  brk : Int
  maxHeap : Int
  classes : Fin 7 → Option Int
  heap_listp : Int

/-- A blank host region: break at 0, all array bytes zero except that the
56 bytes that will become the class table may hold arbitrary residue `c`
(memlib hands out uninitialized memory; `mm_init` writes only slots 0..5). -/
def mkBlank (c : Fin 7 → Option Int) : AState :=
  { mem := fun _ => 0
    brk := 0
    maxHeap := 20971520
    classes := c
    heap_listp := 0 }

instance : Inhabited AState := ⟨mkBlank (fun _ => none)⟩

/-- `mem_sbrk(incr)`: returns the old break and advances it, or fails when the
host array is exhausted. -/
def mem_sbrk (s : AState) (incr : Nat) : Option (AState × Int) :=
  if s.brk + (incr : Int) ≤ s.maxHeap then
    some ({ s with brk := s.brk + (incr : Int) }, s.brk)
  else none

/-- `GET(p)` (line 61): read the 32-bit word at 4-aligned byte offset `p`
inside the host array. -/
def getw (s : AState) (p : Int) : Option Nat :=
  if 0 ≤ p ∧ p % 4 = 0 ∧ p + 4 ≤ s.maxHeap then some (s.mem p % W32) else none

/-- `PUT(p, val)` (line 62): write a 32-bit word (value taken mod 2^32) at
4-aligned byte offset `p` inside the host array. -/
def putw (s : AState) (p : Int) (v : Int) : Option AState :=
  if 0 ≤ p ∧ p % 4 = 0 ∧ p + 4 ≤ s.maxHeap then
    some { s with mem := fun q => if q = p then u32 v else s.mem q }
  else none

/-- Read class-table slot `i` (`ptr_classes[i]`), `none` for an index outside 0..6. -/
def getClass (s : AState) (i : Nat) : Option Int :=
  if h : i < 7 then s.classes ⟨i, h⟩ else none

/-- Write class-table slot `i` (`ptr_classes[i] = v`). -/
def setClass (s : AState) (i : Fin 7) (v : Option Int) : AState :=
  { s with classes := fun k => if k = i then v else s.classes k }

/-- `HDRP(bp)` (line 69): the block header sits 4 bytes below the payload. -/
def HDRP (bp : Int) : Int := bp - 4

/-- `FTRP(bp)` (line 70): footer address, computed from the current header. -/
def FTRP (s : AState) (bp : Int) : Option Int := do
  let w ← getw s (HDRP bp)
  pure (bp + (GET_SIZE w : Int) - 8)

/-- `NEXT_BLKP(bp)` (line 73). -/
def NEXT_BLKP (s : AState) (bp : Int) : Option Int := do
  let w ← getw s (bp - 4)
  pure (bp + (GET_SIZE w : Int))

/-- `PREV_BLKP(bp)` (line 74). -/
def PREV_BLKP (s : AState) (bp : Int) : Option Int := do
  let w ← getw s (bp - 8)
  pure (bp - (GET_SIZE w : Int))

/-- `SUCC(bp)` (line 81): this block's payload plus the signed offset stored at
`bp + 4`. -/
def SUCC (s : AState) (bp : Int) : Option Int := do
  let w ← getw s (bp + 4)
  pure (bp + toInt32 w)

/-- `PRED(bp)` (line 82): this block's payload plus the signed offset stored at
`bp`. -/
def PRED (s : AState) (bp : Int) : Option Int := do
  let w ← getw s bp
  pure (bp + toInt32 w)

/-- Bucket selection used by `delete_from_class` (lines 507-591) and
`append_to_class` (lines 615-681): the cascade of signed `int` comparisons
`size <= 512`, `<= 1024`, ... `<= 16384`, else bucket 6. -/
def bucketIdx (sz : Int) : Fin 7 :=
  if sz ≤ 512 then 0
  else if sz ≤ 1024 then 1
  else if sz ≤ 2048 then 2
  else if sz ≤ 4096 then 3
  else if sz ≤ 8192 then 4
  else if sz ≤ 16384 then 5
  else 6

/-- Starting bucket of `find_fit`'s cascade (lines 301-385), which compares the
unsigned `size_t` argument `asize` against the same boundaries. -/
def bucketStart (asize : Nat) : Nat :=
  if asize ≤ 512 then 0
  else if asize ≤ 1024 then 1
  else if asize ≤ 2048 then 2
  else if asize ≤ 4096 then 3
  else if asize ≤ 8192 then 4
  else if asize ≤ 16384 then 5
  else 6

/-- `append_to_class(bp, size)` (lines 614-692).  The seven C branches are the
same text specialised to the bucket picked by the `int` size cascade
(`bucketIdx`): write `pred_offset := 0`; if the bucket head exists, link both
ways, else write `succ_offset := 0`; make `bp` the head. -/
def append_to_class (s : AState) (bp : Int) (size : Int) : Option AState := do
  let i := bucketIdx size
  let s1 ← putw s bp 0
  match s.classes i with
  | some h => do
      let s2 ← putw s1 (bp + 4) (h - bp)
      let s3 ← putw s2 h (bp - h)
      pure (setClass s3 i (some bp))
  | none => do
      let s2 ← putw s1 (bp + 4) 0
      pure (setClass s2 i (some bp))

/-- The `switch` of `delete_from_class` (lines 492-506): resolve the target
block `ptr` and its `int ptr_size` from the mode (0: next block, 1: previous
block, 2: the block itself). -/
def deleteTarget (s : AState) (bp : Int) (prev : Nat) : Option (Int × Int) :=
  match prev with
  | 0 => do
      let n ← NEXT_BLKP s bp
      let w ← getw s (n - 4)
      pure (n, toInt32 (GET_SIZE w))
  | 1 => do
      let p ← PREV_BLKP s bp
      let w ← getw s (p - 4)
      pure (p, toInt32 (GET_SIZE w))
  | 2 => do
      let w ← getw s (bp - 4)
      pure (bp, toInt32 (GET_SIZE w))
  | _ => none

/-- The head branch of a `delete_from_class` bucket case (e.g. lines 508-510):
`ptr_classes[i] = GET(ptr+4) == 0 ? NULL : SUCC(ptr)`. -/
def deleteHead (s : AState) (i : Fin 7) (ptr : Int) : Option AState := do
  let w4 ← getw s (ptr + 4)
  if w4 = 0 then pure (setClass s i none)
  else pure (setClass s i (some (ptr + toInt32 w4)))

/-- The non-head branch of a `delete_from_class` bucket case (e.g. lines
511-519): splice `ptr` out via its `pred`/`succ` offsets; the C re-reads
`PRED`/`SUCC` for the second `PUT`. -/
def deleteMid (s : AState) (ptr : Int) : Option AState := do
  let w4 ← getw s (ptr + 4)
  if w4 = 0 then do
    let p ← PRED s ptr
    putw s (p + 4) 0
  else do
    let p ← PRED s ptr
    let sc ← SUCC s ptr
    let s1 ← putw s (p + 4) (sc - p)
    let p2 ← PRED s1 ptr
    let sc2 ← SUCC s1 ptr
    putw s1 sc2 (p2 - sc2)

/-- `delete_from_class(bp, prev)` (lines 489-605).  The seven duplicated
bucket branches are the same text specialised to `bucketIdx ptr_size`. -/
def delete_from_class (s : AState) (bp : Int) (prev : Nat) : Option AState := do
  let pr ← deleteTarget s bp prev
  let i := bucketIdx pr.2
  if s.classes i = some pr.1 then deleteHead s i pr.1
  else deleteMid s pr.1

/-- One step of `find_fit`'s scan loop (lines 302-312 and their six copies):
examine only the head of bucket `i`; a head fits when the signed `int` cast of
`GET_SIZE(head) - asize` is nonnegative; stop with NULL after bucket 6.  The
fuel is always at least `7 - i`, so the 0-fuel case is unreachable. -/
def ffScan (s : AState) (asize : Nat) : Nat → Nat → Option (Option Int)
  | 0, _ => none
  | fuel + 1, i =>
    match getClass s i with
    | some p => do
        let v ← getw s (p - 4)
        if 0 ≤ castInt ((GET_SIZE v : Int) - (asize : Int)) then pure (some p)
        else if i = 6 then pure none else ffScan s asize fuel (i + 1)
    | none => if i = 6 then pure none else ffScan s asize fuel (i + 1)

/-- `find_fit(asize)` (lines 295-405): pick the starting bucket from the
unsigned `asize` cascade, then scan bucket heads upward to bucket 6. -/
def find_fit (s : AState) (asize : Nat) : Option (Option Int) :=
  ffScan s asize 7 (bucketStart asize)

/-- `coalesce` case 1 (lines 415-417): both neighbours allocated, append the
block itself. -/
def coalesceCase1 (s : AState) (bp : Int) (size : Nat) : Option (AState × Int) := do
  let s1 ← append_to_class s bp (castInt (size : Int))
  pure (s1, bp)

/-- `coalesce` case 2 (lines 419-426): next block free — absorb it. -/
def coalesceCase2 (s : AState) (bp : Int) (size : Nat) : Option (AState × Int) := do
  let nx2 ← NEXT_BLKP s bp
  let wn ← getw s (nx2 - 4)
  let s1 ← delete_from_class s bp 0
  let s2 ← putw s1 (bp - 4) (PACK (u32 ((size : Int) + toInt32 (GET_SIZE wn))) 0 : Nat)
  let f ← FTRP s2 bp
  let s3 ← putw s2 f (PACK (u32 ((size : Int) + toInt32 (GET_SIZE wn))) 0 : Nat)
  let s4 ← append_to_class s3 bp (castInt ((u32 ((size : Int) + toInt32 (GET_SIZE wn)) : Nat) : Int))
  pure (s4, bp)

/-- `coalesce` case 3 (lines 428-436): previous block free — merge into it. -/
def coalesceCase3 (s : AState) (bp : Int) (size : Nat) : Option (AState × Int) := do
  let pv2 ← PREV_BLKP s bp
  let wp ← getw s (pv2 - 4)
  let s1 ← delete_from_class s bp 1
  let f ← FTRP s1 bp
  let s2 ← putw s1 f (PACK (u32 ((size : Int) + toInt32 (GET_SIZE wp))) 0 : Nat)
  let pv3 ← PREV_BLKP s2 bp
  let s3 ← putw s2 (pv3 - 4) (PACK (u32 ((size : Int) + toInt32 (GET_SIZE wp))) 0 : Nat)
  let pv4 ← PREV_BLKP s3 bp
  let s4 ← append_to_class s3 pv4 (castInt ((u32 ((size : Int) + toInt32 (GET_SIZE wp)) : Nat) : Int))
  pure (s4, pv4)

/-- First half of `coalesce` case 4 (lines 439-442): compute the merged size
and remove both neighbours from their lists. -/
def coalesceCase4a (s : AState) (bp : Int) (size : Nat) : Option (AState × Nat) := do
  let pv2 ← PREV_BLKP s bp
  let wp ← getw s (pv2 - 4)
  let nx2 ← NEXT_BLKP s bp
  let fn ← FTRP s nx2
  let wf ← getw s fn
  let s1 ← delete_from_class s bp 1
  let s2 ← delete_from_class s1 bp 0
  pure (s2, u32 ((size : Int) + (GET_SIZE wp : Int) + (GET_SIZE wf : Int)))

/-- Second half of `coalesce` case 4 (lines 443-446): rewrite the previous
block's header and the next block's footer, move to the previous block and
append it. -/
def coalesceCase4b (s2 : AState) (bp : Int) (size2 : Nat) : Option (AState × Int) := do
  let pv3 ← PREV_BLKP s2 bp
  let s3 ← putw s2 (pv3 - 4) (PACK size2 0 : Nat)
  let nx3 ← NEXT_BLKP s3 bp
  let fn3 ← FTRP s3 nx3
  let s4 ← putw s3 fn3 (PACK size2 0 : Nat)
  let pv5 ← PREV_BLKP s4 bp
  let s5 ← append_to_class s4 pv5 (castInt (size2 : Int))
  pure (s5, pv5)

/-- `coalesce` case 4 (lines 438-447): both neighbours free — merge all
three. -/
def coalesceCase4 (s : AState) (bp : Int) (size : Nat) : Option (AState × Int) := do
  let r ← coalesceCase4a s bp size
  coalesceCase4b r.1 bp r.2

/-- `coalesce(bp)` (lines 410-449): boundary-tag coalescing with the four
neighbour cases, returning the payload of the merged block. -/
def coalesce (s : AState) (bp : Int) : Option (AState × Int) := do
  let pv ← PREV_BLKP s bp
  let fpv ← FTRP s pv
  let wpa ← getw s fpv
  let nx ← NEXT_BLKP s bp
  let wna ← getw s (nx - 4)
  let wsz ← getw s (bp - 4)
  if GET_ALLOC wpa ≠ 0 then
    if GET_ALLOC wna ≠ 0 then coalesceCase1 s bp (GET_SIZE wsz)
    else coalesceCase2 s bp (GET_SIZE wsz)
  else
    if GET_ALLOC wna ≠ 0 then coalesceCase3 s bp (GET_SIZE wsz)
    else coalesceCase4 s bp (GET_SIZE wsz)

/-- The size in bytes that `extend_heap(words)` actually requests (line 247):
round the word count up to even, times the word size, truncated to the 32-bit
variable `size`. -/
def extendSize (words : Nat) : Nat :=
  u32 (((if words % 2 = 1 then (words + 1) * 4 else words * 4) : Nat) : Int)

/-- `extend_heap(words)` (lines 241-257): grow the region by
`extendSize words` bytes, lay down the free block's header/footer and the new
epilogue, and coalesce.  Returns `(state, none)` when `mem_sbrk` refuses. -/
def extend_heap (s : AState) (words : Nat) : Option (AState × Option Int) :=
  match mem_sbrk s (extendSize words) with
  | none => pure (s, none)
  | some (s0, bp) => do
      let s1 ← putw s0 (bp - 4) (PACK (extendSize words) 0 : Nat)
      let f ← FTRP s1 bp
      let s2 ← putw s1 f (PACK (extendSize words) 0 : Nat)
      let nx ← NEXT_BLKP s2 bp
      let s3 ← putw s2 (nx - 4) (PACK 0 1 : Nat)
      let (s4, r) ← coalesce s3 bp
      pure (s4, some r)

/-- `place(bp, asize)` (lines 266-284): read the block size, unlink the block,
then split when the remainder is at least 16 bytes (`DSIZE + OVERHEAD`),
appending the remainder, else allocate the whole block.  The split comparison
`csize - asize >= 16` is the C `size_t` (64-bit unsigned) subtraction.
`placeSplit` is the split branch (lines 271-278). -/
def placeSplit (s1 : AState) (bp : Int) (asize csize : Nat) : Option AState := do
  let s2 ← putw s1 (bp - 4) (PACK asize 1 : Nat)
  let f ← FTRP s2 bp
  let s3 ← putw s2 f (PACK asize 1 : Nat)
  let bp2 ← NEXT_BLKP s3 bp
  let s4 ← putw s3 (bp2 - 4) ((csize : Int) - (asize : Int))
  let f2 ← FTRP s4 bp2
  let s5 ← putw s4 f2 ((csize : Int) - (asize : Int))
  append_to_class s5 bp2 (castInt ((csize : Int) - (asize : Int)))

/-- The no-split branch of `place` (lines 279-282). -/
def placeWhole (s1 : AState) (bp : Int) (csize : Nat) : Option AState := do
  let s2 ← putw s1 (bp - 4) (PACK csize 1 : Nat)
  let f ← FTRP s2 bp
  putw s2 f (PACK csize 1 : Nat)

/-- `place(bp, asize)` (lines 266-284): read the block size, unlink, then
split or allocate whole. -/
def place (s : AState) (bp : Int) (asize : Nat) : Option AState := do
  let w ← getw s (bp - 4)
  let s1 ← delete_from_class s bp 2
  if 16 ≤ ((GET_SIZE w : Int) - (asize : Int)) % 18446744073709551616 then
    placeSplit s1 bp asize (GET_SIZE w)
  else
    placeWhole s1 bp (GET_SIZE w)

/-- The adjusted block size `asize` computed by `mm_malloc` (lines 153-156):
16 bytes for requests of at most 8 bytes, else
`DSIZE * ((size + OVERHEAD + DSIZE-1) / DSIZE)` in 64-bit `size_t` arithmetic,
truncated to the 32-bit variable `asize`. -/
def asizeOf (size : Nat) : Nat :=
  if size ≤ 8 then 16
  else (size + 15) % 18446744073709551616 / 8 * 8 % W32

/-- The no-fit branch of `mm_malloc` (lines 164-170): extend the heap by
`MIN(asize, CHUNKSIZE) / WSIZE` words and place into the result; NULL when the
extension failed. -/
def mallocExtend (s : AState) (asize : Nat) : Option (AState × Option Int) := do
  let (s1, r1) ← extend_heap s (min asize 65536 / 4)
  match r1 with
  | none => pure (s1, none)
  | some bp => do
      let s2 ← place s1 bp asize
      pure (s2, some bp)

/-- `mm_malloc(size)` (lines 142-171).  Result: `none` models undefined
behaviour; `some (s, none)` models returning NULL. -/
def mm_malloc (s : AState) (size : Nat) : Option (AState × Option Int) :=
  if size = 0 then some (s, none)
  else do
    let r ← find_fit s (asizeOf size)
    match r with
    | some bp => do
        let s1 ← place s bp (asizeOf size)
        pure (s1, some bp)
    | none => mallocExtend s (asizeOf size)

/-- `mm_free(bp)` (lines 178-185).  The C body performs no null check; with a
null argument `GET_SIZE(HDRP(NULL))` dereferences 4 bytes below the null
pointer, far outside the host array — undefined behaviour, i.e. `none`. -/
def mm_free (s : AState) (bp : Option Int) : Option AState :=
  match bp with
  | none => none
  | some bp => do
      let w ← getw s (bp - 4)
      let s1 ← putw s (bp - 4) (PACK (GET_SIZE w) 0 : Nat)
      let f ← FTRP s1 bp
      let s2 ← putw s1 f (PACK (GET_SIZE w) 0 : Nat)
      let (s3, _) ← coalesce s2 bp
      pure s3

/-- Read the byte at offset `p` (used to model `memcpy`). -/
def byteGet (s : AState) (p : Int) : Option Nat := do
  let w ← getw s (p - p % 4)
  pure (w / 256 ^ (p % 4).toNat % 256)

/-- Write the byte at offset `p` (used to model `memcpy`). -/
def byteSet (s : AState) (p : Int) (b : Nat) : Option AState := do
  let w ← getw s (p - p % 4)
  let sh := 256 ^ (p % 4).toNat
  putw s (p - p % 4) ((w - w / sh % 256 * sh + b % 256 * sh : Nat) : Int)

/-- `memcpy(dst, src, n)`: copy `n` bytes in ascending order. -/
def memcpyN (s : AState) (dst src : Int) : Nat → Option AState
  | 0 => some s
  | n + 1 => do
      let s1 ← memcpyN s dst src n
      let b ← byteGet s1 (src + (n : Int))
      byteSet s1 (dst + (n : Int)) b

/-- `mm_realloc(ptr, size)` (lines 192-207): allocate, abort the process when
that fails (`exit(1)`, modelled as `none`), then
`copySize = GET_SIZE(HDRP(ptr)); if (size < copySize) copySize = size;`,
copy, free the old block, return the new payload.  A null `ptr` dereferences
below the null pointer in `GET_SIZE(HDRP(ptr))`. -/
def mm_realloc (s : AState) (ptr : Option Int) (size : Nat) : Option (AState × Int) := do
  let (s1, np) ← mm_malloc s size
  match np with
  | none => none
  | some np =>
    match ptr with
    | none => none
    | some p => do
        let w ← getw s1 (p - 4)
        let s2 ← memcpyN s1 np p (min size (GET_SIZE w))
        let s3 ← mm_free s2 (some p)
        pure (s3, np)

/-- The `reallocate` operation as the specification words it: identical to
`mm_realloc` except that it copies `min(size, size_of(old_block) - 8)` bytes.
This definition follows the spec's words and exists to be compared with
`mm_realloc`, which follows the source. -/
def reallocSpec (s : AState) (ptr : Option Int) (size : Nat) : Option (AState × Int) := do
  let (s1, np) ← mm_malloc s size
  match np with
  | none => none
  | some np =>
    match ptr with
    | none => none
    | some p => do
        let w ← getw s1 (p - 4)
        let s2 ← memcpyN s1 np p (min size (GET_SIZE w - 8))
        let s3 ← mm_free s2 (some p)
        pure (s3, np)

/-- Lines 106-124 of `mm_init`: obtain the class table, write `NULL` into
slots 0 through 5 only (slot 6 is left holding whatever the host memory
contained), then lay down padding, prologue and epilogue and set
`heap_listp`. -/
def mm_init_phase1 (s : AState) : Option AState := do
  let (s1, _) ← mem_sbrk s 56
  let s2 := setClass (setClass (setClass (setClass (setClass (setClass s1
              0 none) 1 none) 2 none) 3 none) 4 none) 5 none
  let (s3, hl) ← mem_sbrk s2 16
  let s4 ← putw s3 hl 0
  let s5 ← putw s4 (hl + 4) (PACK 8 1 : Nat)
  let s6 ← putw s5 (hl + 8) (PACK 8 1 : Nat)
  let s7 ← putw s6 (hl + 12) (PACK 0 1 : Nat)
  pure { s7 with heap_listp := hl + 8 }

/-- `mm_init` (lines 103-135): phase 1, then extend the heap by
`CHUNKSIZE / WSIZE` words, then assign slot 6 and zero the chunk's two link
words.  Returns the C function's `int` result. -/
def mm_init (s : AState) : Option (AState × Int) := do
  let s7 ← mm_init_phase1 s
  let (s8, r) ← extend_heap s7 (65536 / 4)
  match r with
  | none => pure (s8, -1)
  | some _ => do
      let s9 := setClass s8 6 (some (s7.heap_listp + 8))
      let s10 ← putw s9 (s7.heap_listp + 8) 0
      let s11 ← putw s10 (s7.heap_listp + 8 + 4) 0
      pure (s11, 0)

/-- The state after a successful `mm_init` on a blank zeroed host region. -/
def postInitState : AState :=
  ((mm_init (mkBlank (fun _ => none))).map Prod.fst).getD (mkBlank (fun _ => none))

/-- Walk the blocks of the heap in address order starting at payload `bp`,
recording `(payload, header word)` pairs, stopping at the first zero-size
header — the loop structure of `mm_checkheap` (line 223). -/
def walk (s : AState) (bp : Int) : Nat → Option (List (Int × Nat))
  | 0 => none
  | fuel + 1 => do
      let w ← getw s (bp - 4)
      if GET_SIZE w = 0 then pure []
      else do
        let rest ← walk s (bp + (GET_SIZE w : Int)) fuel
        pure ((bp, w) :: rest)

/-- Follow `succ` offsets from a bucket head, collecting the member payloads;
a zero `succ_offset` terminates the list. -/
def chase (s : AState) : Option Int → Nat → Option (List Int)
  | none, _ => some []
  | some _, 0 => none
  | some p, fuel + 1 => do
      let w ← getw s (p + 4)
      if w = 0 then pure [p]
      else do
        let rest ← chase s (some (p + toInt32 w)) fuel
        pure (p :: rest)

/-!
Concrete driver states: sequences of public calls starting from a fresh
region, used as inputs for the claims below.  `mm_malloc (2^64 - 1)` passes
the largest `size_t`; the adjustment at lines 153-156 computes
`asize = 8 * ((2^64 - 1 + 15) mod 2^64 / 8) = 8` on it, so the allocator
builds blocks of recorded size 8.
-/

/-- After init: allocate two maximal-`size_t` requests (blocks of recorded
size 8 at payloads 72 and 80), then free the first; kept with both returned
payloads. -/
def scenC8 : Option (AState × Option Int × Option Int) := do
  let (s1, a1) ← mm_malloc postInitState (2 ^ 64 - 1)
  let (s2, a2) ← mm_malloc s1 (2 ^ 64 - 1)
  let s3 ← mm_free s2 a1
  pure (s3, a1, a2)

/-- The intermediate state of `scenC8` after the two allocations, before the
free. -/
def scenC8mid : Option AState := do
  let (s1, _) ← mm_malloc postInitState (2 ^ 64 - 1)
  let (s2, _) ← mm_malloc s1 (2 ^ 64 - 1)
  pure s2

/-- After init: two maximal-`size_t` allocations, two one-byte allocations,
then free the first one-byte block and the first tiny block. -/
def scenC7 : Option AState := do
  let (s1, a1) ← mm_malloc postInitState (2 ^ 64 - 1)
  let (s2, _a2) ← mm_malloc s1 (2 ^ 64 - 1)
  let (s3, a3) ← mm_malloc s2 1
  let (s4, _a4) ← mm_malloc s3 1
  let s5 ← mm_free s4 a3
  mm_free s5 a1

/-- After init: four `malloc(1000)` calls, free the first and the third, then
allocate 1000 bytes once more (which takes the bucket-1 head). -/
def scenC4 : Option AState := do
  let (s1, a0) ← mm_malloc postInitState 1000
  let (s2, _a1) ← mm_malloc s1 1000
  let (s3, a2) ← mm_malloc s2 1000
  let (s4, _a3) ← mm_malloc s3 1000
  let s5 ← mm_free s4 a0
  let s6 ← mm_free s5 a2
  let (s7, _m) ← mm_malloc s6 1000
  pure s7

/-- Run `n` calls of `mm_malloc 1000`, collecting the returned payloads in
call order. -/
def mallocRun : AState → Nat → Option (AState × List Int)
  | s, 0 => some (s, [])
  | s, n + 1 => do
      let (s1, r) ← mm_malloc s 1000
      match r with
      | none => none
      | some p => do
          let (s2, l) ← mallocRun s1 n
          pure (s2, p :: l)

/-- After init: ten `malloc(1000)` calls `a0..a9`, then free `a0, a2, a4, a6,
a8` in that order. -/
def scenC9 : Option AState := do
  let (s, l) ← mallocRun postInitState 10
  let t1 ← mm_free s (l.get? 0)
  let t2 ← mm_free t1 (l.get? 2)
  let t3 ← mm_free t2 (l.get? 4)
  let t4 ← mm_free t3 (l.get? 6)
  mm_free t4 (l.get? 8)

/-- After init: one `malloc(8)` call, returning payload 72 with a 16-byte
block (header and footer `PACK(16,1) = 17`). -/
def scenC1base : Option AState := (mm_malloc postInitState 8).map Prod.fst

/-- A host region whose class-table bytes contain a nonzero residue in the
slot-6 position: memlib hands the allocator uninitialized memory, so this is a
legal initial condition for `mm_init`. -/
def residueC5 : Fin 7 → Option Int := fun i => if i = 6 then some 5 else none

/-- The state produced by appending the (free) payload 104 with size argument
500 to the post-init state, used to witness the append characterisation. -/
def appendW : AState := (append_to_class postInitState 104 500).getD postInitState

/-- The quiescent state of the C4 scenario just before its final `malloc`:
bucket 1 holds `[2088, 72]`. -/
def c4mid : AState :=
  ((do
    let (s1, a0) ← mm_malloc postInitState 1000
    let (s2, _a1) ← mm_malloc s1 1000
    let (s3, a2) ← mm_malloc s2 1000
    let (s4, _a3) ← mm_malloc s3 1000
    let s5 ← mm_free s4 a0
    mm_free s5 a2 : Option AState)).getD postInitState

/-- The state after deleting the bucket-1 head 2088 of `c4mid` (mode 2), used
to witness the head-deletion characterisation. -/
def c4del : AState := (delete_from_class c4mid 2088 2).getD c4mid

/-- One step of the fit scan as the specification words it: examine only the
head of bucket `i`; the head fits when its size is at least `asize`; move on
to the next bucket otherwise, returning `none` after bucket 6.  This
definition follows the spec's words and exists to be compared with `ffScan`,
which follows the source's signed-`int` comparison. -/
def ffSpecScan (s : AState) (asize : Nat) : Nat → Nat → Option (Option Int)
  | 0, _ => none
  | fuel + 1, i =>
    match getClass s i with
    | some p => do
        let v ← getw s (p - 4)
        if asize ≤ GET_SIZE v then pure (some p)
        else if i = 6 then pure none else ffSpecScan s asize fuel (i + 1)
    | none => if i = 6 then pure none else ffSpecScan s asize fuel (i + 1)

/-- The fit search as the specification words it: segregated first-fit with
upward scan from `bucket_of(asize)`, examining only bucket heads. -/
def findFitSpec (s : AState) (asize : Nat) : Option (Option Int) :=
  ffSpecScan s asize 7 (bucketStart asize)

/-- The state after `init` and `malloc(8)`: payload 72 owns a 16-byte block
with header and footer `PACK(16,1) = 17`. -/
def c1base : AState := scenC1base.getD postInitState

/-- The result of the inner `mm_malloc(100)` that `mm_realloc(72, 100)`
performs on `c1base`: a 112-byte block at payload 88. -/
def c1mal : AState × Option Int := (mm_malloc c1base 100).getD (c1base, none)

/-- Executable check that every class-table head whose header is readable has
`GET_SIZE` below 2^31 (so the source's `(int)` cast of the fit comparison
cannot wrap). -/
def headsSmall (s : AState) : Bool :=
  (List.finRange 7).all (fun i =>
    match s.classes i with
    | none => true
    | some p =>
      match getw s (p - 4) with
      | none => true
      | some v => decide (GET_SIZE v < 2147483648))

/-- Executable well-formedness facts about an allocator state that the
`mm_malloc` characterisation relies on: the break is 8-aligned and past the
prologue; every bucket head is an 8-aligned payload inside the heap whose
`succ_offset` word is 8-aligned and whose header files it in that very
bucket; and the last block before the epilogue has equal header and footer of
size at least 8 and, when free, is the head of its bucket.  These hold on
every state the allocator builds from `mm_init` onward. -/
def mallocPre (s : AState) : Bool :=
  decide (s.brk % 8 = 0) && decide (72 ≤ s.brk) &&
  ((List.finRange 7).all (fun i =>
    match s.classes i with
    | none => true
    | some q =>
      decide (q % 8 = 0) && decide (q + 16 ≤ s.brk) &&
      (match getw s (q + 4) with
       | none => false
       | some w => decide (w % 8 = 0)) &&
      (match getw s (q - 4) with
       | none => false
       | some v => decide (bucketIdx (toInt32 (GET_SIZE v)) = i)))) &&
  (match getw s (s.brk - 8) with
   | none => false
   | some f =>
     decide (8 ≤ GET_SIZE f) &&
     (match getw s (s.brk - (GET_SIZE f : Int) - 4) with
      | none => false
      | some hf =>
        decide (hf = f) &&
        (decide (f % 2 = 1) ||
         (decide (f % 2 = 0) &&
          decide (s.classes (bucketIdx (toInt32 (GET_SIZE f)))
            = some (s.brk - (GET_SIZE f : Int)))))))

/-- The state and payload produced by `malloc(100)` on the freshly initialized
heap, used to exercise the malloc success theorem on a concrete run. -/
def c3state : AState :=
  ((mm_malloc postInitState 100).getD (postInitState, none)).1

/-!
Theorems.
-/

/-- C10: immediately after `init()` returns 0 on a fresh zeroed region,
buckets 0 through 5 are empty; bucket 6 holds exactly the single free block at
payload 72 whose header records size 65536 and the free bit, whose
`pred_offset` and `succ_offset` words are 0; its next neighbour is the
zero-sized allocated epilogue and its previous neighbour is the 8-byte
allocated prologue. -/
theorem init_heap_layout :
    (mm_init (mkBlank (fun _ => none))).map (fun r => r.2) = some 0 ∧
    postInitState.classes 0 = none ∧ postInitState.classes 1 = none ∧
    postInitState.classes 2 = none ∧ postInitState.classes 3 = none ∧
    postInitState.classes 4 = none ∧ postInitState.classes 5 = none ∧
    postInitState.classes 6 = some 72 ∧
    chase postInitState (postInitState.classes 6) 10 = some [72] ∧
    getw postInitState 68 = some 65536 ∧
    GET_SIZE 65536 = 65536 ∧ GET_ALLOC 65536 = 0 ∧
    getw postInitState 72 = some 0 ∧ getw postInitState 76 = some 0 ∧
    NEXT_BLKP postInitState 72 = some 65608 ∧
    getw postInitState (65608 - 4) = some 1 ∧ GET_SIZE 1 = 0 ∧ GET_ALLOC 1 = 1 ∧
    PREV_BLKP postInitState 72 = some 64 ∧
    getw postInitState (64 - 4) = some 9 ∧ GET_SIZE 9 = 8 ∧ GET_ALLOC 9 = 1 := by
  decide

/-- C2 (amended): `mm_free` performs no null check; on the null payload it
dereferences the word 4 bytes below the null pointer, which lies outside the
managed region — undefined behaviour on every state, not a no-op. -/
theorem free_none_is_fault (s : AState) : mm_free s none = none := rfl

/-- C2 counterexample: at the concrete post-init state, `free(none)` is not a
no-op returning the state unchanged — it faults. -/
theorem free_none_counterexample : ¬ mm_free postInitState none = some postInitState := by
  intro h
  exact Option.noConfusion (h.symm.trans (rfl : mm_free postInitState none = none))

/-- C5: `mm_init` zeroes only class-table slots 0 through 5 before extending
the heap (lines 110-115); slot 6 keeps whatever residue the host memory held,
and with a nonzero residue (here the odd offset 5) the extension's
`coalesce`/`append_to_class` dereferences it and `mm_init` faults. -/
theorem init_leaves_slot6_uninitialized :
    (mm_init_phase1 (mkBlank residueC5)).map
        (fun s => (List.finRange 7).map (fun i => s.classes i))
      = some [none, none, none, none, none, none, some 5] ∧
    mm_init (mkBlank residueC5) = none := by
  exact ⟨by decide, rfl⟩

/-- C8: a reachable quiescent state (init; `malloc(2^64-1)` twice, giving
live 8-byte blocks at payloads 72 and 80; free the first) in which the live
allocated block at payload 80 has header word 0 but footer word 9: the header
no longer equals the footer.  Before the free, both were `PACK(8,1) = 9`. -/
theorem header_footer_mismatch_reachable :
    (scenC8.map fun r => (r.2.1, r.2.2)) = some (some 72, some 80) ∧
    scenC8mid.map (fun s => (getw s 76, getw s 80)) = some (some 9, some 9) ∧
    scenC8.map (fun r => (getw r.1 76, getw r.1 80)) = some (some 0, some 9) ∧
    (0 : Nat) ≠ 9 := by
  decide

/-- C7: a reachable quiescent state (init; `malloc(2^64-1)` twice;
`malloc(1)` twice; free the first `malloc(1)` block; free the first tiny
block) in which the address-order walk from the prologue shows two consecutive
free blocks: payload 72 with header 8 (size 8, free) followed by payload 80
with header 16 (size 16, free). -/
theorem adjacent_free_blocks_reachable :
    scenC7.bind (fun s => walk s 64 20) = some [(64, 9), (72, 8), (80, 16)] ∧
    GET_ALLOC 8 = 0 ∧ GET_ALLOC 16 = 0 ∧
    NEXT_BLKP postInitState 72 = some 65608 ∧
    (72 : Int) + (GET_SIZE 8 : Int) = 80 := by
  decide

/-- C3 counterexample: from the post-init state, `malloc(2^64 - 1)` returns
payload 72 whose header is `PACK(8,1) = 9`: the recorded block size is 8,
far below the claim's `asize = roundup8(size + 8)` — the 32-bit `asize`
variable wrapped. -/
theorem malloc_asize_overflow_counterexample :
    (mm_malloc postInitState (2 ^ 64 - 1)).map (fun r => (r.2, getw r.1 68))
      = some (some 72, some 9) ∧
    GET_SIZE 9 = 8 ∧ GET_ALLOC 9 = 1 ∧
    GET_SIZE 9 < (2 ^ 64 - 1 + 8 + 7) / 8 * 8 := by
  refine ⟨by decide, by decide, by decide, ?_⟩
  norm_num [GET_SIZE]

/-- C4 counterexample: after init; `malloc(1000)` four times; free the first
and third blocks (bucket 1 becomes `[2088, 72]`); `malloc(1000)` removes the
head 2088 — a quiescent state in which the bucket-1 head 72 still stores
`pred_offset` 2016 (pointing at the removed block 2088), not 0. -/
theorem bucket_head_pred_nonzero_counterexample :
    scenC4.map (fun s => (s.classes 1, getw s 72, chase s (s.classes 1) 10))
      = some (some 72, some 2016, some [72]) ∧
    (2016 : Nat) ≠ 0 := by
  decide

/-! Basic lemmas about the word store. -/

theorem u32_lt (x : Int) : u32 x < W32 := by
  unfold u32 W32
  rw [show ((4294967296 : Nat) : Int) = (4294967296 : Int) by norm_num]
  omega

theorem putw_some (s : AState) (p v : Int) (s' : AState) (h : putw s p v = some s') :
    (0 ≤ p ∧ p % 4 = 0 ∧ p + 4 ≤ s.maxHeap) ∧
    s'.mem = (fun q => if q = p then u32 v else s.mem q) ∧
    s'.brk = s.brk ∧ s'.maxHeap = s.maxHeap ∧ s'.classes = s.classes ∧
    s'.heap_listp = s.heap_listp := by
  unfold putw at h
  split at h
  · next hc =>
      simp only [Option.some.injEq] at h
      subst h
      exact ⟨hc, rfl, rfl, rfl, rfl, rfl⟩
  · cases h

theorem getw_some (s : AState) (p : Int) (w : Nat) (h : getw s p = some w) :
    (0 ≤ p ∧ p % 4 = 0 ∧ p + 4 ≤ s.maxHeap) ∧ w = s.mem p % W32 := by
  unfold getw at h
  split at h
  · next hc =>
      simp only [Option.some.injEq] at h
      exact ⟨hc, h.symm⟩
  · cases h

theorem getw_mk (s : AState) (p : Int) (hc : 0 ≤ p ∧ p % 4 = 0 ∧ p + 4 ≤ s.maxHeap) :
    getw s p = some (s.mem p % W32) := by
  unfold getw
  rw [if_pos hc]

theorem getw_of_putw_ne (s s' : AState) (p v : Int) (q : Int)
    (h : putw s p v = some s') (hq : q ≠ p) : getw s' q = getw s q := by
  obtain ⟨-, hm, -, hmx, -, -⟩ := putw_some s p v s' h
  unfold getw
  rw [hmx, hm]
  simp [hq]

theorem getw_of_putw_self (s s' : AState) (p v : Int)
    (h : putw s p v = some s') : getw s' p = some (u32 v) := by
  obtain ⟨hc, hm, -, hmx, -, -⟩ := putw_some s p v s' h
  unfold getw
  rw [hmx, hm, if_pos hc]
  simp [Nat.mod_eq_of_lt (u32_lt v)]

theorem setClass_fields (s : AState) (i : Fin 7) (v : Option Int) :
    (setClass s i v).mem = s.mem ∧ (setClass s i v).brk = s.brk ∧
    (setClass s i v).maxHeap = s.maxHeap ∧ (setClass s i v).classes i = v ∧
    (∀ j, j ≠ i → (setClass s i v).classes j = s.classes j) := by
  refine ⟨rfl, rfl, rfl, ?_, ?_⟩
  · simp [setClass]
  · intro j hj
    simp [setClass, hj]

/-- C9: `append(block, size)` is LIFO insertion at the head of the bucket
selected by `size`: afterwards that bucket's head is `block`, `block`'s
`pred_offset` is 0, `block`'s `succ_offset` is `old_head - block` when the
bucket was non-empty (and the old head's `pred_offset` becomes
`block - old_head`) and 0 when it was empty; other buckets are untouched.
Consequently, freeing `a0, a2, a4, a6, a8` of ten 1000-byte allocations in
that order leaves bucket 1 in LIFO order `a8, a6, a4, a2, a0`
(payloads `8136, 6120, 4104, 2088, 72`). -/
theorem append_lifo_insertion :
    (∀ (s s' : AState) (bp sz : Int),
      append_to_class s bp sz = some s' →
      (∀ h0, s.classes (bucketIdx sz) = some h0 → h0 ≠ bp ∧ h0 ≠ bp + 4) →
      s'.classes (bucketIdx sz) = some bp ∧
      getw s' bp = some 0 ∧
      (∀ j, j ≠ bucketIdx sz → s'.classes j = s.classes j) ∧
      (s.classes (bucketIdx sz) = none → getw s' (bp + 4) = some 0) ∧
      (∀ h0, s.classes (bucketIdx sz) = some h0 →
        getw s' (bp + 4) = some (u32 (h0 - bp)) ∧
        getw s' h0 = some (u32 (bp - h0)))) ∧
    scenC9.bind (fun t => chase t (t.classes 1) 10) = some [8136, 6120, 4104, 2088, 72] := by
  constructor
  · intro s s' bp sz h hsep
    unfold append_to_class at h
    simp only [Option.bind_eq_bind, Option.bind_eq_some] at h
    obtain ⟨s1, h1, h2⟩ := h
    cases hcl : s.classes (bucketIdx sz) with
    | none =>
        rw [hcl] at h2
        simp only [Option.bind_eq_bind, Option.bind_eq_some, Option.pure_def,
          Option.some.injEq] at h2
        obtain ⟨s2, h3, h4⟩ := h2
        subst h4
        have p1 := putw_some _ _ _ _ h1
        have p2 := putw_some _ _ _ _ h3
        have hne : bp ≠ bp + 4 := by omega
        refine ⟨?_, ?_, ?_, ?_, ?_⟩
        · simp [setClass]
        · have : getw (setClass s2 (bucketIdx sz) (some bp)) bp = getw s2 bp := rfl
          rw [this, getw_of_putw_ne _ _ _ _ _ h3 hne, getw_of_putw_self _ _ _ _ h1]
          simp [u32]
        · intro j hj
          simp [setClass, hj, p2.2.2.2.2.1, p1.2.2.2.2.1]
        · intro _
          have : getw (setClass s2 (bucketIdx sz) (some bp)) (bp + 4) = getw s2 (bp + 4) := rfl
          rw [this, getw_of_putw_self _ _ _ _ h3]
          simp [u32]
        · intro h0 hh0; exact absurd hh0 (by simp)
    | some h0 =>
        rw [hcl] at h2
        simp only [Option.bind_eq_bind, Option.bind_eq_some, Option.pure_def,
          Option.some.injEq] at h2
        obtain ⟨s2, h3, s3, h4, h5⟩ := h2
        subst h5
        obtain ⟨hne1, hne2⟩ := hsep h0 hcl
        have hne3 : bp ≠ bp + 4 := by omega
        refine ⟨?_, ?_, ?_, ?_, ?_⟩
        · simp [setClass]
        · have : getw (setClass s3 (bucketIdx sz) (some bp)) bp = getw s3 bp := rfl
          rw [this, getw_of_putw_ne _ _ _ _ _ h4 (Ne.symm hne1),
              getw_of_putw_ne _ _ _ _ _ h3 hne3, getw_of_putw_self _ _ _ _ h1]
          simp [u32]
        · intro j hj
          have q1 := (putw_some _ _ _ _ h1).2.2.2.2.1
          have q2 := (putw_some _ _ _ _ h3).2.2.2.2.1
          have q3 := (putw_some _ _ _ _ h4).2.2.2.2.1
          simp [setClass, hj, q3, q2, q1]
        · intro hc; exact absurd hc (by simp)
        · intro h0' hh0'
          injection hh0' with e
          subst e
          constructor
          · have : getw (setClass s3 (bucketIdx sz) (some bp)) (bp + 4) = getw s3 (bp + 4) := rfl
            rw [this, getw_of_putw_ne _ _ _ _ _ h4 (fun e => hne2 e.symm),
                getw_of_putw_self _ _ _ _ h3]
          · have : getw (setClass s3 (bucketIdx sz) (some bp)) h0 = getw s3 h0 := rfl
            rw [this, getw_of_putw_self _ _ _ _ h4]
  · decide

/-- Witness for the append characterisation: appending payload 104 with size
argument 500 into the (empty) bucket 0 of the post-init state makes 104 that
bucket's head with `pred_offset` 0. -/
theorem append_lifo_witness :
    appendW.classes (bucketIdx 500) = some 104 ∧ getw appendW 104 = some 0 := by
  have h : append_to_class postInitState 104 500 = some appendW := rfl
  have hsep : ∀ h0, postInitState.classes (bucketIdx 500) = some h0 →
      h0 ≠ 104 ∧ h0 ≠ 104 + 4 := by
    intro h0 hh
    rw [show postInitState.classes (bucketIdx 500) = none from by decide] at hh
    exact absurd hh (by simp)
  have hc := append_lifo_insertion.1 postInitState appendW 104 500 h hsep
  exact ⟨hc.1, hc.2.1⟩

/-- C4 (amended): deleting a bucket head (mode 2) whose `succ_offset` is
nonzero writes no memory word at all — it merely redirects the bucket head to
the successor, so the new head keeps whatever `pred_offset` it had, which
still points at the removed block rather than being 0. -/
theorem delete_head_keeps_stale_pred (s s' : AState) (bp : Int) (v w : Nat)
    (hv : getw s (bp - 4) = some v)
    (hhead : s.classes (bucketIdx (toInt32 (GET_SIZE v))) = some bp)
    (hw : getw s (bp + 4) = some w) (hwne : w ≠ 0)
    (h : delete_from_class s bp 2 = some s') :
    s'.mem = s.mem ∧ s'.brk = s.brk ∧ s'.maxHeap = s.maxHeap ∧
    s'.classes (bucketIdx (toInt32 (GET_SIZE v))) = some (bp + toInt32 w) ∧
    (∀ j, j ≠ bucketIdx (toInt32 (GET_SIZE v)) → s'.classes j = s.classes j) ∧
    getw s' (bp + toInt32 w) = getw s (bp + toInt32 w) := by
  have hdt : deleteTarget s bp 2 = some (bp, toInt32 (GET_SIZE v)) := by
    have e : deleteTarget s bp 2 =
        (getw s (bp - 4)).bind (fun w0 => some (bp, toInt32 (GET_SIZE w0))) := rfl
    rw [e, hv]
    rfl
  unfold delete_from_class at h
  rw [hdt] at h
  simp only [Option.bind_eq_bind, Option.some_bind] at h
  rw [if_pos hhead] at h
  unfold deleteHead at h
  rw [hw] at h
  simp only [Option.bind_eq_bind, Option.some_bind] at h
  rw [if_neg hwne] at h
  simp only [Option.pure_def, Option.some.injEq] at h
  subst h
  refine ⟨rfl, rfl, rfl, ?_, ?_, rfl⟩
  · simp [setClass]
  · intro j hj
    simp [setClass, hj]

/-- Witness for the head-deletion characterisation: deleting the bucket-1 head
2088 of the concrete state `c4mid` (bucket 1 = `[2088, 72]`) makes 72 the head
while changing no memory word — its stale `pred_offset` included. -/
theorem delete_head_witness :
    c4del.classes 1 = some 72 ∧ c4del.mem = c4mid.mem := by
  have hc := delete_head_keeps_stale_pred c4mid c4del 2088 1008 4294965280
    (by decide) (by decide) (by decide) (by decide) rfl
  refine ⟨?_, hc.1⟩
  have h1 := hc.2.2.2.1
  rw [show bucketIdx (toInt32 (GET_SIZE 1008)) = 1 from by decide] at h1
  rw [show (2088 : Int) + toInt32 4294965280 = 72 from by decide] at h1
  exact h1

/-- A signed 32-bit truncation of a value strictly between -2^31 and 2^31 is
nonnegative exactly when the value is. -/
theorem castInt_nonneg_iff (x : Int) (hl : -2147483648 < x) (hu : x < 2147483648) :
    0 ≤ castInt x ↔ 0 ≤ x := by
  unfold castInt toInt32 u32 W32
  rw [show ((4294967296 : Nat) : Int) = (4294967296 : Int) by norm_num]
  split <;> omega

theorem headsSmall_spec (s : AState) (h : headsSmall s = true) :
    ∀ i p v, getClass s i = some p → getw s (p - 4) = some v →
      GET_SIZE v < 2147483648 := by
  intro i p v hcl hv
  unfold getClass at hcl
  split at hcl
  · next h7 =>
      have hm := List.all_eq_true.mp h ⟨i, h7⟩ (List.mem_finRange _)
      simp only [hcl] at hm
      simp only [hv] at hm
      exact of_decide_eq_true hm
  · cases hcl

theorem ffScan_eq_spec (s : AState) (asize : Nat)
    (ha : asize < 2147483648) (hs : headsSmall s = true) :
    ∀ fuel i, ffScan s asize fuel i = ffSpecScan s asize fuel i := by
  intro fuel
  induction fuel with
  | zero => intro i; rfl
  | succ n ih =>
      intro i
      unfold ffScan ffSpecScan
      cases hcl : getClass s i with
      | none =>
          simp only []
          split
          · rfl
          · exact ih (i + 1)
      | some p =>
          cases hv : getw s (p - 4) with
          | none => simp [hv]
          | some v =>
              have hlt := headsSmall_spec s hs i p v hcl hv
              have hiff : (0 ≤ castInt ((GET_SIZE v : Int) - (asize : Int))) ↔
                  (asize ≤ GET_SIZE v) := by
                rw [castInt_nonneg_iff _ (by omega) (by omega)]
                omega
              simp only [hv, Option.bind_eq_bind, Option.some_bind]
              rw [if_congr hiff rfl rfl]
              split
              · rfl
              · split
                · rfl
                · exact ih (i + 1)

/-- C6 (amended): for every `asize` below 2^31, on a state whose bucket heads
have sizes below 2^31, `find_fit` coincides with the specification's
segregated first-fit upward scan: only the heads of buckets
`bucket_of(asize)` through 6 are examined, the first visited non-empty bucket
whose head has size at least `asize` yields that head, and the search yields
`none` otherwise — even when a deeper block would have fit.  For larger
`asize` the source's `(int)` cast of `GET_SIZE(head) - asize` can wrap and
accept a too-small head. -/
theorem find_fit_scans_heads_upward (s : AState) (asize : Nat)
    (ha : asize < 2147483648) (hs : headsSmall s = true) :
    find_fit s asize = findFitSpec s asize := by
  unfold find_fit findFitSpec
  exact ffScan_eq_spec s asize ha hs 7 (bucketStart asize)

/-- C6 counterexample: with `asize = 2^32 - 16` (an adjusted size `mm_malloc`
really computes, e.g. for `size = 2^32 - 24`), the post-init `find_fit`
returns the bucket-6 head 72 whose size 65536 is far below `asize`; the claim
says the scan returns a head only when its size is at least `asize` (the
spec-side scan indeed returns `none`). -/
theorem find_fit_signed_cast_counterexample :
    find_fit postInitState 4294967280 = some (some 72) ∧
    getw postInitState 68 = some 65536 ∧
    GET_SIZE 65536 < 4294967280 ∧
    findFitSpec postInitState 4294967280 = some none := by
  decide

/-- Witness: at the post-init state with `asize = 1008`, the source scan and
the specification scan agree. -/
theorem find_fit_scan_witness :
    find_fit postInitState 1008 = findFitSpec postInitState 1008 :=
  find_fit_scans_heads_upward postInitState 1008 (by decide) (by decide)

/-- C1 (amended): for every state, live payload and size, a `reallocate` call
whose internal allocation succeeds copies exactly
`min(size, size_of(old_block))` bytes — the block size as recorded in the old
header, with no subtraction of the 8 overhead bytes — before freeing the old
block and returning the new payload. -/
theorem realloc_copies_min_size_blocksize (s s1 : AState) (p np : Int) (n w : Nat)
    (hm : mm_malloc s n = some (s1, some np))
    (hw : getw s1 (p - 4) = some w) :
    mm_realloc s (some p) n =
      (do
        let s2 ← memcpyN s1 np p (min n (GET_SIZE w))
        let s3 ← mm_free s2 (some p)
        pure (s3, np)) := by
  unfold mm_realloc
  rw [hm]
  simp only [Option.bind_eq_bind, Option.some_bind]
  rw [hw]
  simp only [Option.bind_eq_bind, Option.some_bind]

/-- C1 counterexample: after init and `a = malloc(8)` (block size 16),
`realloc(a, 100)` copies `min(100, 16) = 16` bytes — the byte at offset 8 of
the new payload is the first byte of the old block's footer (17) — whereas
the spec's `min(100, 16 - 8) = 8` would leave that byte untouched (0), as the
spec-following `reallocSpec` shows. -/
theorem realloc_copy_counterexample :
    (scenC1base.bind fun s => mm_realloc s (some 72) 100).map
        (fun r => (r.2, byteGet r.1 96)) = some (88, some 17) ∧
    (scenC1base.bind fun s => reallocSpec s (some 72) 100).map
        (fun r => (r.2, byteGet r.1 96)) = some (88, some 0) ∧
    min 100 (GET_SIZE 17) = 16 ∧ min 100 (GET_SIZE 17 - 8) = 8 ∧
    (17 : Nat) ≠ 0 := by
  decide

/-- Witness: the copy-size characterisation applied at the concrete state
after init and `malloc(8)`, reallocating payload 72 to 100 bytes. -/
theorem realloc_copy_witness :
    mm_realloc c1base (some 72) 100 =
      (do
        let s2 ← memcpyN c1mal.1 88 72 (min 100 (GET_SIZE 17))
        let s3 ← mm_free s2 (some 72)
        pure (s3, 88)) :=
  realloc_copies_min_size_blocksize c1base c1mal.1 72 88 100 17 rfl (by decide)

/-! Arithmetic helper lemmas for the `mm_malloc` characterisation. -/

theorem w32cast : ((W32 : Nat) : Int) = (4294967296 : Int) := by norm_num [W32]

theorem u32_natCast (k : Nat) (hk : k < W32) : u32 (k : Int) = k := by
  unfold u32
  rw [w32cast]
  unfold W32 at hk
  omega

theorem u32_mod8 (x : Int) (hx : x % 8 = 0) : u32 x % 8 = 0 := by
  unfold u32
  rw [w32cast]
  omega

theorem toInt32_mod8 (w : Nat) (hw : w % 8 = 0) : toInt32 w % 8 = 0 := by
  unfold toInt32
  rw [w32cast]
  split <;> omega

theorem castInt_ofNat_small (k : Nat) (hk : k < 2147483648) :
    castInt (k : Int) = (k : Int) := by
  unfold castInt toInt32
  rw [u32_natCast k (by unfold W32; omega)]
  rw [if_pos hk]

theorem GET_SIZE_mod8 (v : Nat) : GET_SIZE v % 8 = 0 := by
  unfold GET_SIZE
  omega

theorem GET_SIZE_succ (m : Nat) (hm : m % 8 = 0) : GET_SIZE (m + 1) = m := by
  unfold GET_SIZE
  omega

theorem GET_SIZE_self (m : Nat) (hm : m % 8 = 0) : GET_SIZE m = m := by
  unfold GET_SIZE
  omega

theorem whole_branch_le (c a : Nat)
    (h : ¬ 16 ≤ ((c : Int) - (a : Int)) % 18446744073709551616)
    (hc : c < W32) (ha : a < W32) (h16 : 16 ≤ a) : a ≤ c := by
  unfold W32 at hc ha
  omega

/-! Characterisations of the list operations used by `place` and `coalesce`. -/

theorem deleteTarget2 (s : AState) (bp : Int) (v : Nat)
    (hv : getw s (bp - 4) = some v) :
    deleteTarget s bp 2 = some (bp, toInt32 (GET_SIZE v)) := by
  have e : deleteTarget s bp 2 =
      (getw s (bp - 4)).bind (fun w0 => some (bp, toInt32 (GET_SIZE w0))) := rfl
  rw [e, hv]
  rfl

theorem deleteTarget1 (s : AState) (bp : Int) (f v : Nat)
    (hf : getw s (bp - 8) = some f)
    (hv : getw s (bp - (GET_SIZE f : Int) - 4) = some v) :
    deleteTarget s bp 1 = some (bp - (GET_SIZE f : Int), toInt32 (GET_SIZE v)) := by
  have e : deleteTarget s bp 1 =
      (PREV_BLKP s bp).bind (fun p =>
        (getw s (p - 4)).bind (fun w0 => some (p, toInt32 (GET_SIZE w0)))) := rfl
  have ep : PREV_BLKP s bp = some (bp - (GET_SIZE f : Int)) := by
    unfold PREV_BLKP
    rw [hf]
    rfl
  rw [e, ep]
  simp only [Option.some_bind]
  rw [hv]
  rfl

theorem delete_head_spec (s s' : AState) (bp ptr sz : Int) (mode : Nat)
    (hdt : deleteTarget s bp mode = some (ptr, sz))
    (hhead : s.classes (bucketIdx sz) = some ptr)
    (h : delete_from_class s bp mode = some s') :
    ∃ w4, getw s (ptr + 4) = some w4 ∧
      s'.mem = s.mem ∧ s'.brk = s.brk ∧ s'.maxHeap = s.maxHeap ∧
      s'.classes (bucketIdx sz)
        = (if w4 = 0 then none else some (ptr + toInt32 w4)) ∧
      (∀ j, j ≠ bucketIdx sz → s'.classes j = s.classes j) := by
  unfold delete_from_class at h
  rw [hdt] at h
  simp only [Option.bind_eq_bind, Option.some_bind] at h
  rw [if_pos hhead] at h
  unfold deleteHead at h
  cases hw4 : getw s (ptr + 4) with
  | none => rw [hw4] at h; cases h
  | some w4 =>
      rw [hw4] at h
      simp only [Option.bind_eq_bind, Option.some_bind] at h
      refine ⟨w4, rfl, ?_⟩
      by_cases hz : w4 = 0
      · rw [if_pos hz] at h
        simp only [Option.pure_def, Option.some.injEq] at h
        subst h
        rw [if_pos hz]
        exact ⟨rfl, rfl, rfl, by simp [setClass], fun j hj => by simp [setClass, hj]⟩
      · rw [if_neg hz] at h
        simp only [Option.pure_def, Option.some.injEq] at h
        subst h
        rw [if_neg hz]
        exact ⟨rfl, rfl, rfl, by simp [setClass], fun j hj => by simp [setClass, hj]⟩

theorem append_frame (s s' : AState) (bp sz : Int)
    (h : append_to_class s bp sz = some s') :
    s'.brk = s.brk ∧ s'.maxHeap = s.maxHeap ∧
    s'.classes (bucketIdx sz) = some bp ∧
    (∀ j, j ≠ bucketIdx sz → s'.classes j = s.classes j) ∧
    (∀ q : Int, q ≠ bp → q ≠ bp + 4 →
      (∀ h0, s.classes (bucketIdx sz) = some h0 → q ≠ h0) →
      s'.mem q = s.mem q) := by
  unfold append_to_class at h
  simp only [Option.bind_eq_bind, Option.bind_eq_some] at h
  obtain ⟨s1, h1, h2⟩ := h
  have p1 := putw_some _ _ _ _ h1
  cases hcl : s.classes (bucketIdx sz) with
  | none =>
      rw [hcl] at h2
      simp only [Option.bind_eq_bind, Option.bind_eq_some, Option.pure_def,
        Option.some.injEq] at h2
      obtain ⟨s2, h3, h4⟩ := h2
      subst h4
      have p2 := putw_some _ _ _ _ h3
      refine ⟨?_, ?_, by simp [setClass], fun j hj => ?_, fun q hq1 hq2 _ => ?_⟩
      · show s2.brk = s.brk
        rw [p2.2.2.1, p1.2.2.1]
      · show s2.maxHeap = s.maxHeap
        rw [p2.2.2.2.1, p1.2.2.2.1]
      · simp [setClass, hj, p2.2.2.2.2.1, p1.2.2.2.2.1]
      · show s2.mem q = s.mem q
        rw [p2.2.1, p1.2.1]
        simp [hq1, hq2]
  | some h0 =>
      rw [hcl] at h2
      simp only [Option.bind_eq_bind, Option.bind_eq_some, Option.pure_def,
        Option.some.injEq] at h2
      obtain ⟨s2, h3, s3, h4, h5⟩ := h2
      subst h5
      have p2 := putw_some _ _ _ _ h3
      have p3 := putw_some _ _ _ _ h4
      refine ⟨?_, ?_, by simp [setClass], fun j hj => ?_, fun q hq1 hq2 hq3 => ?_⟩
      · show s3.brk = s.brk
        rw [p3.2.2.1, p2.2.2.1, p1.2.2.1]
      · show s3.maxHeap = s.maxHeap
        rw [p3.2.2.2.1, p2.2.2.2.1, p1.2.2.2.1]
      · simp [setClass, hj, p3.2.2.2.2.1, p2.2.2.2.2.1, p1.2.2.2.2.1]
      · show s3.mem q = s.mem q
        rw [p3.2.1, p2.2.1, p1.2.1]
        simp [hq1, hq2, hq3 h0 rfl]

theorem getw_of_append_ne (s s' : AState) (bp sz q : Int)
    (h : append_to_class s bp sz = some s')
    (h1 : q ≠ bp) (h2 : q ≠ bp + 4)
    (h3 : ∀ h0, s.classes (bucketIdx sz) = some h0 → q ≠ h0) :
    getw s' q = getw s q := by
  obtain ⟨-, hmx, -, -, hmem⟩ := append_frame s s' bp sz h
  unfold getw
  rw [hmx, hmem q h1 h2 h3]

theorem ffScan_finds (s : AState) (a : Nat) :
    ∀ fuel i p, ffScan s a fuel i = some (some p) →
      ∃ j : Fin 7, s.classes j = some p := by
  intro fuel
  induction fuel with
  | zero => intro i p h; cases h
  | succ n ih =>
      intro i p h
      unfold ffScan at h
      cases hcl : getClass s i with
      | none =>
          simp only [hcl] at h
          split at h
          · exact absurd h (by simp)
          · exact ih _ _ h
      | some q =>
          simp only [hcl] at h
          cases hv : getw s (q - 4) with
          | none =>
              simp only [hv, Option.bind_eq_bind, Option.none_bind] at h
              exact absurd h (by simp)
          | some v =>
              simp only [hv, Option.bind_eq_bind, Option.some_bind] at h
              split at h
              · simp only [Option.pure_def, Option.some.injEq] at h
                subst h
                unfold getClass at hcl
                split at hcl
                · exact ⟨_, hcl⟩
                · cases hcl
              · split at h
                · exact absurd h (by simp)
                · exact ih _ _ h

theorem mallocPre_brk (s : AState) (h : mallocPre s = true) :
    s.brk % 8 = 0 ∧ 72 ≤ s.brk := by
  unfold mallocPre at h
  simp only [Bool.and_eq_true, decide_eq_true_eq] at h
  exact ⟨h.1.1.1, h.1.1.2⟩

theorem mallocPre_head (s : AState) (h : mallocPre s = true) :
    ∀ (i : Fin 7) (q : Int), s.classes i = some q →
      q % 8 = 0 ∧ q + 16 ≤ s.brk ∧
      (∃ w, getw s (q + 4) = some w ∧ w % 8 = 0) ∧
      (∃ v, getw s (q - 4) = some v ∧ bucketIdx (toInt32 (GET_SIZE v)) = i) := by
  unfold mallocPre at h
  simp only [Bool.and_eq_true] at h
  intro i q hq
  have hm := List.all_eq_true.mp h.1.2 i (List.mem_finRange _)
  simp only [hq] at hm
  simp only [Bool.and_eq_true, decide_eq_true_eq] at hm
  refine ⟨hm.1.1.1, hm.1.1.2, ?_, ?_⟩
  · cases hw : getw s (q + 4) with
    | none => rw [hw] at hm; cases hm.1.2
    | some w =>
        rw [hw] at hm
        exact ⟨w, rfl, by simpa using hm.1.2⟩
  · cases hv : getw s (q - 4) with
    | none => rw [hv] at hm; cases hm.2
    | some v =>
        rw [hv] at hm
        exact ⟨v, rfl, by simpa using hm.2⟩

theorem mallocPre_last (s : AState) (h : mallocPre s = true) :
    ∃ f, getw s (s.brk - 8) = some f ∧ 8 ≤ GET_SIZE f ∧
      getw s (s.brk - (GET_SIZE f : Int) - 4) = some f ∧
      (f % 2 = 1 ∨ (f % 2 = 0 ∧
        s.classes (bucketIdx (toInt32 (GET_SIZE f)))
          = some (s.brk - (GET_SIZE f : Int)))) := by
  unfold mallocPre at h
  simp only [Bool.and_eq_true] at h
  have hm := h.2
  cases hf : getw s (s.brk - 8) with
  | none => rw [hf] at hm; cases hm
  | some f =>
      rw [hf] at hm
      simp only [Bool.and_eq_true, decide_eq_true_eq] at hm
      refine ⟨f, rfl, hm.1, ?_⟩
      have hm2 := hm.2
      cases hhf : getw s (s.brk - (GET_SIZE f : Int) - 4) with
      | none => rw [hhf] at hm2; cases hm2
      | some hfv =>
          rw [hhf] at hm2
          simp only [Bool.and_eq_true, Bool.or_eq_true, decide_eq_true_eq] at hm2
          obtain ⟨he, hcase⟩ := hm2
          subst he
          exact ⟨rfl, by tauto⟩

theorem getw_congr (s s' : AState) (hm : s'.mem = s.mem)
    (hx : s'.maxHeap = s.maxHeap) (q : Int) : getw s' q = getw s q := by
  unfold getw
  rw [hm, hx]

theorem getw_lt (s : AState) (p : Int) (w : Nat) (h : getw s p = some w) :
    w < W32 := by
  have hw := (getw_some s p w h).2
  subst hw
  exact Nat.mod_lt _ (by norm_num [W32])

theorem PACK_as_add (size alloc : Nat) : PACK size alloc = size + alloc := rfl


/-- Effect of `place(bp, asize)` on the placed block's header, for a block
`p` that is the head of the bucket its recorded size files it in: the call
writes an allocated header whose size is `asize` in the split case and the
whole (not smaller) block size otherwise. -/
theorem place_spec (t t' : AState) (p : Int) (a : Nat) (j : Fin 7) (v : Nat)
    (hpj : t.classes j = some p)
    (hv : getw t (p - 4) = some v)
    (hbj : bucketIdx (toInt32 (GET_SIZE v)) = j)
    (hp8 : p % 8 = 0)
    (hA : ∀ (i : Fin 7) (q : Int), t.classes i = some q → q % 8 = 0)
    (hB : ∀ w, getw t (p + 4) = some w → w % 8 = 0)
    (ha8 : a % 8 = 0) (ha16 : 16 ≤ a) (halt : a < 4294967288)
    (h : place t p a = some t') :
    ∃ m : Nat, getw t' (p - 4) = some (m + 1) ∧ m % 8 = 0 ∧ a ≤ m ∧
      t'.maxHeap = t.maxHeap := by
  have hvlt : v < W32 := getw_lt t (p - 4) v hv
  have hcsz8 : GET_SIZE v % 8 = 0 := GET_SIZE_mod8 v
  have hcszlt : GET_SIZE v < W32 := by unfold GET_SIZE; omega
  unfold place at h
  rw [hv] at h
  simp only [Option.bind_eq_bind, Option.some_bind, Option.bind_eq_some] at h
  obtain ⟨s1, hdel, h2⟩ := h
  have hdt := deleteTarget2 t p v hv
  have hhead : t.classes (bucketIdx (toInt32 (GET_SIZE v))) = some p := by
    rw [hbj]; exact hpj
  obtain ⟨w4, hw4, hm1, hb1, hx1, hc1, hc2⟩ :=
    delete_head_spec t s1 p p (toInt32 (GET_SIZE v)) 2 hdt hhead hdel
  have hw48 : w4 % 8 = 0 := hB w4 hw4
  have hv1 : getw s1 (p - 4) = some v := by
    rw [getw_congr t s1 hm1 hx1]
    exact hv
  -- any head of `s1` is 8-aligned
  have hA1 : ∀ (i : Fin 7) (q : Int), s1.classes i = some q → q % 8 = 0 := by
    intro i q hq
    by_cases hij : i = bucketIdx (toInt32 (GET_SIZE v))
    · subst hij
      rw [hc1] at hq
      by_cases hz : w4 = 0
      · rw [if_pos hz] at hq; cases hq
      · rw [if_neg hz] at hq
        injection hq with hq
        have h8 := toInt32_mod8 w4 hw48
        omega
    · rw [hc2 i hij] at hq
      exact hA i q hq
  split at h2
  · -- split branch
    next hcond =>
    unfold placeSplit at h2
    simp only [Option.bind_eq_bind, Option.bind_eq_some] at h2
    obtain ⟨s2, hw1, f, hftr1, s3, hw2, bp2, hnext, s4, hw3, f2, hftr2, s5, hw5, happ⟩ := h2
    have ha1lt : a + 1 < W32 := by unfold W32; omega
    have hg2 : getw s2 (p - 4) = some (a + 1) := by
      have e := getw_of_putw_self s1 s2 (p - 4) ((PACK a 1 : Nat) : Int) hw1
      rw [PACK_as_add] at e
      rw [e, u32_natCast (a + 1) ha1lt]
    have hfval : f = p + (a : Int) - 8 := by
      unfold FTRP HDRP at hftr1
      rw [hg2] at hftr1
      simp only [Option.bind_eq_bind, Option.some_bind, Option.pure_def,
        Option.some.injEq] at hftr1
      rw [GET_SIZE_succ a ha8] at hftr1
      exact hftr1.symm
    subst hfval
    have hg3 : getw s3 (p - 4) = some (a + 1) := by
      rw [getw_of_putw_ne s2 s3 _ _ _ hw2 (by omega), hg2]
    have hbp2 : bp2 = p + (a : Int) := by
      unfold NEXT_BLKP at hnext
      rw [hg3] at hnext
      simp only [Option.bind_eq_bind, Option.some_bind, Option.pure_def,
        Option.some.injEq] at hnext
      rw [GET_SIZE_succ a ha8] at hnext
      exact hnext.symm
    subst hbp2
    have hg4 : getw s4 (p + (a : Int) - 4)
        = some (u32 ((GET_SIZE v : Int) - (a : Int))) :=
      getw_of_putw_self s3 s4 _ _ hw3
    have hr8 : u32 ((GET_SIZE v : Int) - (a : Int)) % 8 = 0 :=
      u32_mod8 _ (by omega)
    have hf2val : f2 = p + (a : Int) + (u32 ((GET_SIZE v : Int) - (a : Int)) : Int) - 8 := by
      unfold FTRP HDRP at hftr2
      rw [hg4] at hftr2
      simp only [Option.bind_eq_bind, Option.some_bind, Option.pure_def,
        Option.some.injEq] at hftr2
      rw [GET_SIZE_self _ hr8] at hftr2
      exact hftr2.symm
    subst hf2val
    have hg5 : getw s5 (p - 4) = some (a + 1) := by
      rw [getw_of_putw_ne s4 s5 _ _ _ hw5 (by omega),
          getw_of_putw_ne s3 s4 _ _ _ hw3 (by omega), hg3]
    have hclasses5 : s5.classes = s1.classes := by
      rw [(putw_some _ _ _ _ hw5).2.2.2.2.1, (putw_some _ _ _ _ hw3).2.2.2.2.1,
          (putw_some _ _ _ _ hw2).2.2.2.2.1, (putw_some _ _ _ _ hw1).2.2.2.2.1]
    have hgt' : getw t' (p - 4) = some (a + 1) := by
      rw [getw_of_append_ne s5 t' _ _ _ happ (by omega) (by omega) ?_, hg5]
      intro h0 hh0
      rw [hclasses5] at hh0
      have h08 : h0 % 8 = 0 := hA1 _ _ hh0
      omega
    refine ⟨a, hgt', ha8, le_refl a, ?_⟩
    have hx5 : s5.maxHeap = t.maxHeap := by
      rw [(putw_some _ _ _ _ hw5).2.2.2.1, (putw_some _ _ _ _ hw3).2.2.2.1,
          (putw_some _ _ _ _ hw2).2.2.2.1, (putw_some _ _ _ _ hw1).2.2.2.1, hx1]
    rw [(append_frame _ _ _ _ happ).2.1, hx5]
  · -- whole-block branch
    next hcond =>
    unfold placeWhole at h2
    simp only [Option.bind_eq_bind, Option.bind_eq_some] at h2
    obtain ⟨s2, hw1, f, hftr1, hw2⟩ := h2
    have hc1lt : GET_SIZE v + 1 < W32 := by unfold W32 at hcszlt ⊢; omega
    have hg2 : getw s2 (p - 4) = some (GET_SIZE v + 1) := by
      have e := getw_of_putw_self s1 s2 (p - 4) ((PACK (GET_SIZE v) 1 : Nat) : Int) hw1
      rw [PACK_as_add] at e
      rw [e, u32_natCast _ hc1lt]
    have hfval : f = p + (GET_SIZE v : Int) - 8 := by
      unfold FTRP HDRP at hftr1
      rw [hg2] at hftr1
      simp only [Option.bind_eq_bind, Option.some_bind, Option.pure_def,
        Option.some.injEq] at hftr1
      rw [GET_SIZE_succ _ hcsz8] at hftr1
      exact hftr1.symm
    subst hfval
    have hgt' : getw t' (p - 4) = some (GET_SIZE v + 1) := by
      rw [getw_of_putw_ne s2 t' _ _ _ hw2 (by omega), hg2]
    refine ⟨GET_SIZE v, hgt', hcsz8, ?_, ?_⟩
    · exact whole_branch_le (GET_SIZE v) a hcond hcszlt (by unfold W32; omega) ha16
    · rw [(putw_some _ _ _ _ hw2).2.2.2.1, (putw_some _ _ _ _ hw1).2.2.2.1, hx1]

theorem toInt32_ofNat_small (k : Nat) (hk : k < 2147483648) :
    toInt32 k = (k : Int) := by
  unfold toInt32
  rw [if_pos hk]

theorem castInt_u32 (x : Int) : castInt ((u32 x : Nat) : Int) = toInt32 (u32 x) := by
  unfold castInt
  rw [u32_natCast _ (u32_lt x)]

theorem mem_sbrk_some (s s0 : AState) (n : Nat) (b : Int)
    (h : mem_sbrk s n = some (s0, b)) :
    s0.mem = s.mem ∧ s0.maxHeap = s.maxHeap ∧ s0.classes = s.classes ∧
    s0.brk = s.brk + (n : Int) ∧ b = s.brk ∧ s.brk + (n : Int) ≤ s.maxHeap := by
  unfold mem_sbrk at h
  split at h
  · next hc =>
      simp only [Option.some.injEq, Prod.mk.injEq] at h
      obtain ⟨h1, h2⟩ := h
      subst h1
      subst h2
      exact ⟨rfl, rfl, rfl, rfl, rfl, hc⟩
  · cases h

theorem append_succ8 (s s' : AState) (bp sz : Int)
    (h : append_to_class s bp sz = some s')
    (hbp : bp % 8 = 0)
    (hh : ∀ h0, s.classes (bucketIdx sz) = some h0 → h0 % 8 = 0 ∧ h0 ≠ bp + 4) :
    ∀ w, getw s' (bp + 4) = some w → w % 8 = 0 := by
  intro w hw
  unfold append_to_class at h
  simp only [Option.bind_eq_bind, Option.bind_eq_some] at h
  obtain ⟨s1, h1, h2⟩ := h
  cases hcl : s.classes (bucketIdx sz) with
  | none =>
      rw [hcl] at h2
      simp only [Option.bind_eq_bind, Option.bind_eq_some, Option.pure_def,
        Option.some.injEq] at h2
      obtain ⟨s2, h3, h4⟩ := h2
      subst h4
      have e : getw (setClass s2 (bucketIdx sz) (some bp)) (bp + 4)
          = getw s2 (bp + 4) := rfl
      rw [e, getw_of_putw_self _ _ _ _ h3] at hw
      injection hw with hw
      subst hw
      have : u32 0 = 0 := by norm_num [u32]
      omega
  | some h0 =>
      rw [hcl] at h2
      simp only [Option.bind_eq_bind, Option.bind_eq_some, Option.pure_def,
        Option.some.injEq] at h2
      obtain ⟨s2, h3, s3, h4, h5⟩ := h2
      subst h5
      obtain ⟨h08, h0ne⟩ := hh h0 hcl
      have e : getw (setClass s3 (bucketIdx sz) (some bp)) (bp + 4)
          = getw s3 (bp + 4) := rfl
      rw [e, getw_of_putw_ne _ _ _ _ _ h4 (fun hq => h0ne hq.symm),
        getw_of_putw_self _ _ _ _ h3] at hw
      injection hw with hw
      subst hw
      exact u32_mod8 _ (by omega)

/-- Outcome of the `extend_heap` performed by a missed `mm_malloc` on a
well-formed state: the returned payload is the head of the bucket its header
files it in, with all the alignment facts `place` needs. -/
theorem extend_heap_trace (s s1 : AState) (e : Nat) (bpE : Int)
    (hpre : mallocPre s = true)
    (he8 : e % 8 = 0) (he16 : 16 ≤ e) (helt : e ≤ 65536)
    (hext : extend_heap s (e / 4) = some (s1, some bpE)) :
    ∃ (k : Fin 7) (vE : Nat),
      s1.classes k = some bpE ∧
      getw s1 (bpE - 4) = some vE ∧
      bucketIdx (toInt32 (GET_SIZE vE)) = k ∧
      bpE % 8 = 0 ∧
      (∀ (i : Fin 7) (q : Int), s1.classes i = some q → q % 8 = 0) ∧
      (∀ w, getw s1 (bpE + 4) = some w → w % 8 = 0) ∧
      s1.maxHeap = s.maxHeap := by
  obtain ⟨hbrk8, hbrk72⟩ := mallocPre_brk s hpre
  obtain ⟨f, hgf, hf8, hghf, hfcase⟩ := mallocPre_last s hpre
  have hfm8 : GET_SIZE f % 8 = 0 := GET_SIZE_mod8 f
  have hsize : extendSize (e / 4) = e := by
    unfold extendSize
    rw [if_neg (by omega : ¬ (e / 4) % 2 = 1)]
    rw [show (e / 4) * 4 = e from by omega]
    exact u32_natCast e (by unfold W32; omega)
  unfold extend_heap at hext
  rw [hsize] at hext
  cases hsb : mem_sbrk s e with
  | none =>
      rw [hsb] at hext
      exact absurd hext (by simp)
  | some pr =>
      obtain ⟨s0, bp0⟩ := pr
      rw [hsb] at hext
      obtain ⟨hm0, hx0, hcl0, hbk0, hbp0, hroom⟩ := mem_sbrk_some s s0 e bp0 hsb
      subst hbp0
      simp only [Option.bind_eq_bind, Option.bind_eq_some] at hext
      obtain ⟨sA, hwA, fE, hftrE, sB, hwB, nx, hnx, sC, hwC, pr2, hcoal, hfin⟩ := hext
      obtain ⟨s4c, rr⟩ := pr2
      simp only [Option.pure_def, Option.some.injEq, Prod.mk.injEq] at hfin
      obtain ⟨hs1, hrr⟩ := hfin
      subst hs1
      -- basic putw facts
      have pA := putw_some _ _ _ _ hwA
      have helt32 : e < W32 := by unfold W32; omega
      have hgA : getw sA (s.brk - 4) = some e := by
        have x := getw_of_putw_self _ _ _ _ hwA
        rw [PACK_as_add] at x
        simpa [u32_natCast e helt32] using x
      have hfE : fE = s.brk + (e : Int) - 8 := by
        unfold FTRP HDRP at hftrE
        rw [hgA] at hftrE
        simp only [Option.bind_eq_bind, Option.some_bind, Option.pure_def,
          Option.some.injEq] at hftrE
        rw [GET_SIZE_self e he8] at hftrE
        exact hftrE.symm
      subst hfE
      have pB := putw_some _ _ _ _ hwB
      have hgB : getw sB (s.brk - 4) = some e := by
        rw [getw_of_putw_ne _ _ _ _ _ hwB (by omega), hgA]
      have hnxv : nx = s.brk + (e : Int) := by
        unfold NEXT_BLKP at hnx
        rw [hgB] at hnx
        simp only [Option.bind_eq_bind, Option.some_bind, Option.pure_def,
          Option.some.injEq] at hnx
        rw [GET_SIZE_self e he8] at hnx
        exact hnx.symm
      subst hnxv
      have pC := putw_some _ _ _ _ hwC
      have hgC4 : getw sC (s.brk - 4) = some e := by
        rw [getw_of_putw_ne _ _ _ _ _ hwC (by omega), hgB]
      have hclC : sC.classes = s.classes := by
        rw [pC.2.2.2.2.1, pB.2.2.2.2.1, pA.2.2.2.2.1, hcl0]
      have hxC : sC.maxHeap = s.maxHeap := by
        rw [pC.2.2.2.1, pB.2.2.2.1, pA.2.2.2.1, hx0]
      have hgC8 : getw sC (s.brk - 8) = some f := by
        rw [getw_of_putw_ne _ _ _ _ _ hwC (by omega),
            getw_of_putw_ne _ _ _ _ _ hwB (by omega),
            getw_of_putw_ne _ _ _ _ _ hwA (by omega),
            getw_congr s s0 hm0 hx0]
        exact hgf
      have hgqh : getw sC (s.brk - (GET_SIZE f : Int) - 4) = some f := by
        rw [getw_of_putw_ne _ _ _ _ _ hwC (by omega),
            getw_of_putw_ne _ _ _ _ _ hwB (by omega),
            getw_of_putw_ne _ _ _ _ _ hwA (by omega),
            getw_congr s s0 hm0 hx0]
        exact hghf
      -- the coalesce dispatcher
      have hpv : PREV_BLKP sC s.brk = some (s.brk - (GET_SIZE f : Int)) := by
        unfold PREV_BLKP
        rw [hgC8]
        rfl
      have hfpv : FTRP sC (s.brk - (GET_SIZE f : Int)) = some (s.brk - 8) := by
        unfold FTRP HDRP
        rw [hgqh]
        simp only [Option.bind_eq_bind, Option.some_bind, Option.pure_def,
          Option.some.injEq]
        omega
      have hwna : getw sC (s.brk + (e : Int) - 4) = some 1 := by
        have x := getw_of_putw_self _ _ _ _ hwC
        rw [PACK_as_add] at x
        simpa [show u32 ((0 + 1 : Nat) : Int) = 1 by norm_num [u32, W32]] using x
      unfold coalesce at hcoal
      rw [hpv] at hcoal
      simp only [Option.bind_eq_bind, Option.some_bind] at hcoal
      rw [hfpv] at hcoal
      simp only [Option.bind_eq_bind, Option.some_bind] at hcoal
      rw [hgC8] at hcoal
      simp only [Option.bind_eq_bind, Option.some_bind] at hcoal
      have hnx2 : NEXT_BLKP sC s.brk = some (s.brk + (e : Int)) := by
        unfold NEXT_BLKP
        rw [hgC4]
        simp only [Option.bind_eq_bind, Option.some_bind, Option.pure_def,
          Option.some.injEq]
        rw [GET_SIZE_self e he8]
      rw [hnx2] at hcoal
      simp only [Option.bind_eq_bind, Option.some_bind] at hcoal
      rw [hwna] at hcoal
      simp only [Option.bind_eq_bind, Option.some_bind] at hcoal
      rw [hgC4] at hcoal
      simp only [Option.bind_eq_bind, Option.some_bind] at hcoal
      have hna : GET_ALLOC 1 ≠ 0 := by norm_num [GET_ALLOC]
      rw [if_pos hna, if_pos hna, GET_SIZE_self e he8] at hcoal
      subst hrr
      have hheads : ∀ (i : Fin 7) (q : Int), s.classes i = some q →
          q % 8 = 0 ∧ q + 16 ≤ s.brk := fun i q hq =>
        ⟨(mallocPre_head s hpre i q hq).1, (mallocPre_head s hpre i q hq).2.1⟩
      by_cases hf2 : GET_ALLOC f ≠ 0
      · -- previous block allocated: coalesce case 1
        rw [if_pos hf2] at hcoal
        unfold coalesceCase1 at hcoal
        simp only [Option.bind_eq_bind, Option.bind_eq_some, Option.pure_def,
          Option.some.injEq, Prod.mk.injEq] at hcoal
        obtain ⟨s4, happ, hs4, hbpe⟩ := hcoal
        subst hs4
        subst hbpe
        have hcast : castInt ((e : Nat) : Int) = ((e : Nat) : Int) :=
          castInt_ofNat_small e (by omega)
        have happF := append_frame _ _ _ _ happ
        refine ⟨bucketIdx (castInt ((e : Nat) : Int)), e,
          happF.2.2.1, ?_, ?_, hbrk8, ?_, ?_, ?_⟩
        · rw [getw_of_append_ne _ _ _ _ _ happ (by omega) (by omega) ?_]
          · exact hgC4
          · intro h0 hh0
            rw [hclC] at hh0
            have := (hheads _ _ hh0).2
            omega
        · rw [GET_SIZE_self e he8, hcast, toInt32_ofNat_small e (by omega)]
        · intro i q hq
          by_cases hik : i = bucketIdx (castInt ((e : Nat) : Int))
          · subst hik
            rw [happF.2.2.1] at hq
            injection hq with hq
            omega
          · rw [happF.2.2.2.1 i hik, hclC] at hq
            exact (hheads i q hq).1
        · apply append_succ8 _ _ _ _ happ hbrk8
          intro h0 hh0
          rw [hclC] at hh0
          have := hheads _ _ hh0
          exact ⟨this.1, by omega⟩
        · rw [happF.2.1, hxC]
      · -- previous block free: coalesce case 3
        rw [if_neg hf2] at hcoal
        have hfeven : f % 2 = 0 := by
          by_contra hne
          exact hf2 (by simpa [GET_ALLOC] using hne)
        obtain hodd | ⟨-, hfree⟩ := hfcase
        · omega
        obtain ⟨hq8, hq16, ⟨wq, hwq, hwq8⟩, ⟨vq, hvq, hbq⟩⟩ :=
          mallocPre_head s hpre _ _ hfree
        unfold coalesceCase3 at hcoal
        simp only [Option.bind_eq_bind, Option.bind_eq_some] at hcoal
        obtain ⟨pv2, hpv2, wp, hwp, s1d, hdel, fx, hfx, s2d, hw2d, pv3, hpv3,
          s3d, hw3d, pv4, hpv4, s4d, happ, hfin3⟩ := hcoal
        rw [hpv] at hpv2
        injection hpv2 with hpv2
        subst hpv2
        rw [hgqh] at hwp
        injection hwp with hwp
        subst hwp
        have hdt1 := deleteTarget1 sC s.brk f f hgC8 hgqh
        have hheadC : sC.classes (bucketIdx (toInt32 (GET_SIZE f)))
            = some (s.brk - (GET_SIZE f : Int)) := by
          rw [hclC]; exact hfree
        obtain ⟨w4q, hw4q, hmD, hbD, hxD, hcD1, hcD2⟩ :=
          delete_head_spec sC s1d s.brk (s.brk - (GET_SIZE f : Int))
            (toInt32 (GET_SIZE f)) 1 hdt1 hheadC hdel
        have hw4qv : w4q = wq := by
          have x : getw sC (s.brk - (GET_SIZE f : Int) + 4) = some wq := by
            rw [getw_of_putw_ne _ _ _ _ _ hwC (by omega),
                getw_of_putw_ne _ _ _ _ _ hwB (by omega),
                getw_of_putw_ne _ _ _ _ _ hwA (by omega),
                getw_congr s s0 hm0 hx0]
            exact hwq
          rw [x] at hw4q
          injection hw4q with h
          exact h.symm
        rw [hw4qv] at hcD1
        have hgD4 : getw s1d (s.brk - 4) = some e := by
          rw [getw_congr sC s1d hmD hxD]
          exact hgC4
        have hfxv : fx = s.brk + (e : Int) - 8 := by
          unfold FTRP HDRP at hfx
          rw [hgD4] at hfx
          simp only [Option.bind_eq_bind, Option.some_bind, Option.pure_def,
            Option.some.injEq] at hfx
          rw [GET_SIZE_self e he8] at hfx
          exact hfx.symm
        subst hfxv
        have hz8 : u32 ((e : Int) + toInt32 (GET_SIZE f)) % 8 = 0 :=
          u32_mod8 _ (by have := toInt32_mod8 (GET_SIZE f) hfm8; omega)
        have hzlt : u32 ((e : Int) + toInt32 (GET_SIZE f)) < W32 := u32_lt _
        have p2d := putw_some _ _ _ _ hw2d
        have hg2d8 : getw s2d (s.brk - 8) = some f := by
          rw [getw_of_putw_ne _ _ _ _ _ hw2d (by omega),
              getw_congr sC s1d hmD hxD]
          exact hgC8
        have hpv3v : pv3 = s.brk - (GET_SIZE f : Int) := by
          unfold PREV_BLKP at hpv3
          rw [hg2d8] at hpv3
          simp only [Option.bind_eq_bind, Option.some_bind, Option.pure_def,
            Option.some.injEq] at hpv3
          exact hpv3.symm
        subst hpv3v
        have p3d := putw_some _ _ _ _ hw3d
        have hg3d8 : getw s3d (s.brk - 8) = some f := by
          rw [getw_of_putw_ne _ _ _ _ _ hw3d (by omega), hg2d8]
        have hpv4v : pv4 = s.brk - (GET_SIZE f : Int) := by
          unfold PREV_BLKP at hpv4
          rw [hg3d8] at hpv4
          simp only [Option.bind_eq_bind, Option.some_bind, Option.pure_def,
            Option.some.injEq] at hpv4
          exact hpv4.symm
        subst hpv4v
        simp only [Option.pure_def, Option.some.injEq, Prod.mk.injEq] at hfin3
        obtain ⟨hs4, hbpe⟩ := hfin3
        subst hs4
        subst hbpe
        have hcls3d : s3d.classes = s1d.classes := by
          rw [p3d.2.2.2.2.1, p2d.2.2.2.2.1]
        have hmod8heads3d : ∀ h0,
            s3d.classes (bucketIdx (castInt ((u32 ((e : Int) + toInt32 (GET_SIZE f)) : Nat) : Int)))
              = some h0 → h0 % 8 = 0 := by
          intro h0 hh0
          rw [hcls3d] at hh0
          by_cases hib : bucketIdx (castInt ((u32 ((e : Int) + toInt32 (GET_SIZE f)) : Nat) : Int))
              = bucketIdx (toInt32 (GET_SIZE f))
          · rw [hib, hcD1] at hh0
            by_cases hwz : wq = 0
            · rw [if_pos hwz] at hh0; cases hh0
            · rw [if_neg hwz] at hh0
              injection hh0 with hh0
              have := toInt32_mod8 wq hwq8
              omega
          · rw [hcD2 _ hib, hclC] at hh0
            exact (hheads _ _ hh0).1
        have happF := append_frame _ _ _ _ happ
        refine ⟨bucketIdx (castInt ((u32 ((e : Int) + toInt32 (GET_SIZE f)) : Nat) : Int)),
          u32 ((e : Int) + toInt32 (GET_SIZE f)),
          happF.2.2.1, ?_, ?_, hq8, ?_, ?_, ?_⟩
        · rw [getw_of_append_ne _ _ _ _ _ happ (by omega) (by omega) ?_]
          · have x := getw_of_putw_self _ _ _ _ hw3d
            rw [PACK_as_add] at x
            rw [show ((u32 ((e : Int) + toInt32 (GET_SIZE f)) + 0 : Nat) : Int)
                = ((u32 ((e : Int) + toInt32 (GET_SIZE f)) : Nat) : Int) by norm_num] at x
            rw [u32_natCast _ hzlt] at x
            exact x
          · intro h0 hh0
            have := hmod8heads3d h0 hh0
            omega
        · rw [GET_SIZE_self _ hz8, castInt_u32]
        · intro i q hq
          by_cases hik : i = bucketIdx (castInt ((u32 ((e : Int) + toInt32 (GET_SIZE f)) : Nat) : Int))
          · subst hik
            rw [happF.2.2.1] at hq
            injection hq with hq
            omega
          · rw [happF.2.2.2.1 i hik] at hq
            rw [hcls3d] at hq
            by_cases hib : i = bucketIdx (toInt32 (GET_SIZE f))
            · subst hib
              rw [hcD1] at hq
              by_cases hwz : wq = 0
              · rw [if_pos hwz] at hq; cases hq
              · rw [if_neg hwz] at hq
                injection hq with hq
                have := toInt32_mod8 wq hwq8
                omega
            · rw [hcD2 _ hib, hclC] at hq
              exact (hheads _ _ hq).1
        · apply append_succ8 _ _ _ _ happ hq8
          intro h0 hh0
          have := hmod8heads3d h0 hh0
          exact ⟨this, by omega⟩
        · rw [happF.2.1, p3d.2.2.2.1, p2d.2.2.2.1, hxD, hxC]

/-- The `asize` computed by `mm_malloc` is a multiple of 8, at least 16, and
below `2^32 - 8`, provided the request is positive and at most `2^32 - 24`
(so the 32-bit truncation on line 156 does not wrap). -/
theorem asizeOf_facts (n : Nat) (h1 : 0 < n) (h2 : n ≤ 4294967272) :
    asizeOf n % 8 = 0 ∧ 16 ≤ asizeOf n ∧ asizeOf n < 4294967288 := by
  unfold asizeOf W32
  split <;> omega

/-- C3 (amended): for requests of at most `2^32 - 24` bytes issued in a
well-formed state (`mallocPre`), whenever `malloc(size)` completes without
fault and returns a payload, that payload is 8-byte aligned and its header
marks the block allocated with a recorded size that is a multiple of 8 and at
least the adjusted size `asize`.  (For larger requests the 32-bit truncation
of `asize` wraps and the guarantee fails; see the counterexample.) -/
theorem malloc_returns_aligned_allocated_fit (s s' : AState) (n : Nat) (bp : Int)
    (hpre : mallocPre s = true)
    (hn : 0 < n) (hnle : n ≤ 4294967272)
    (h : mm_malloc s n = some (s', some bp)) :
    bp % 8 = 0 ∧ ∃ m : Nat, getw s' (bp - 4) = some (m + 1) ∧
      m % 8 = 0 ∧ asizeOf n ≤ m := by
  obtain ⟨ha8, ha16, halt⟩ := asizeOf_facts n hn hnle
  unfold mm_malloc at h
  rw [if_neg (by omega : ¬ n = 0)] at h
  simp only [Option.bind_eq_bind, Option.bind_eq_some] at h
  obtain ⟨r, hff, h2⟩ := h
  cases r with
  | some p =>
      simp only [Option.bind_eq_bind, Option.bind_eq_some, Option.pure_def,
        Option.some.injEq, Prod.mk.injEq] at h2
      obtain ⟨s1, hpl, hs1, hbp⟩ := h2
      rw [hs1] at hpl
      subst hbp
      unfold find_fit at hff
      obtain ⟨j, hpj⟩ := ffScan_finds s (asizeOf n) 7 (bucketStart (asizeOf n)) p hff
      obtain ⟨hp8, hp16, ⟨w, hw, hw8⟩, ⟨v, hv, hbj⟩⟩ := mallocPre_head s hpre j p hpj
      have hA : ∀ (i : Fin 7) (q : Int), s.classes i = some q → q % 8 = 0 :=
        fun i q hq => (mallocPre_head s hpre i q hq).1
      have hB : ∀ w', getw s (p + 4) = some w' → w' % 8 = 0 := by
        intro w' hw'
        rw [hw] at hw'
        injection hw' with hww
        omega
      obtain ⟨m, hm, hm8, ham, hx⟩ :=
        place_spec s s' p (asizeOf n) j v hpj hv hbj hp8 hA hB ha8 ha16 halt hpl
      exact ⟨hp8, m, hm, hm8, ham⟩
  | none =>
      unfold mallocExtend at h2
      simp only [Option.bind_eq_bind, Option.bind_eq_some] at h2
      obtain ⟨⟨s1, r1⟩, hext, h3⟩ := h2
      cases r1 with
      | none =>
          simp only [Option.pure_def, Option.some.injEq, Prod.mk.injEq] at h3
          cases h3.2
      | some bpE =>
          simp only [Option.bind_eq_bind, Option.bind_eq_some, Option.pure_def,
            Option.some.injEq, Prod.mk.injEq] at h3
          obtain ⟨s2, hpl, hs2, hbp⟩ := h3
          rw [hs2] at hpl
          subst hbp
          obtain ⟨k, vE, hk, hvE, hbk, hbp8, hA, hB, hmax⟩ :=
            extend_heap_trace s s1 (min (asizeOf n) 65536) bpE hpre
              (by omega) (by omega) (by omega) hext
          obtain ⟨m, hm, hm8, ham, hx⟩ :=
            place_spec s1 s' bpE (asizeOf n) k vE hk hvE hbk hbp8 hA hB
              ha8 ha16 halt hpl
          exact ⟨hbp8, m, hm, hm8, ham⟩

/-- C3 witness: `malloc(100)` on the freshly initialized heap returns
payload 72, which is 8-aligned and carries header `112 + 1`:
an allocated block of size 112 = asize(100). -/
theorem malloc_returns_witness :
    (72 : Int) % 8 = 0 ∧ ∃ m : Nat, getw c3state (72 - 4) = some (m + 1) ∧
      m % 8 = 0 ∧ asizeOf 100 ≤ m :=
  malloc_returns_aligned_allocated_fit postInitState c3state 100 72
    (by rfl) (by decide) (by decide) (by rfl)
